import Mathlib

/-
Shallow embedding of the Tetris game engine in src/main.rs of the
tacyan/Tetris repository.

Modelling conventions:
- Rust Vec becomes List; board cells are BlockType (Empty or Filled);
  the piece mask is List (List Bool).
- Machine integers: the piece anchor (i32) becomes Int; the score (u32)
  becomes Nat (no claim here is in reach of u32 wraparound, which would
  require more than 42 million cleared lines).
- Rust indexing board[y][x] is bounds checked before every access in the
  source (the can_move predicate); the embedding totalizes reads with getD
  and writes with List.set, which are identities out of range.  All
  verified executions stay in range (see the C9 safety theorem).
- The random shape selection in Tetromino::new (rand::thread_rng) is made
  explicit: spawning functions take the chosen catalog index as an extra
  parameter k and reduce it mod 7 exactly as gen_range(0..7) yields an
  index below 7.
- The two Rust while loops (clear_lines scan, hard_drop descent) are
  modelled with an explicit fuel parameter; dedicated lemmas show that the
  fuel supplied by the definitions is exact for the boards the game
  constructs, so the embedded functions agree with the loops.
- The wall clock field last_update and every egui rendering concern are
  outside the engine state, as in the specification.
-/

/-- BOARD_WIDTH in src/main.rs. -/
def boardWidth : Nat := 10

/-- BOARD_HEIGHT in src/main.rs. -/
def boardHeight : Nat := 20

/-- Cell states of the settled board (enum BlockType). -/
inductive BlockType where
  | Empty : BlockType
  | Filled : BlockType
deriving DecidableEq, Repr

/-- struct Tetromino: occupancy mask plus board anchor of its top left corner. -/
structure Tetromino where
  blocks : List (List Bool)
  x : Int
  y : Int
deriving DecidableEq, Repr

/-- struct TetrisGame (the wall clock field last_update is not part of the
engine state modelled here). -/
structure TetrisGame where
  board : List (List BlockType)
  current_piece : Tetromino
  game_over : Bool
  score : Nat
deriving DecidableEq, Repr

/-- Reading mask cell blocks[i][j]; out of range reads default to false
(the source only reads in range). -/
def cellAt (blocks : List (List Bool)) (i j : Nat) : Bool :=
  (blocks.getD i []).getD j false

/-- Reading board[y][x]; out of range reads default to Empty
(the source only reads in range, guarded by can_move). -/
def getCell (board : List (List BlockType)) (y x : Nat) : BlockType :=
  (board.getD y []).getD x BlockType.Empty

/-- Writing Filled into board[y][x]; List.set is the identity out of range
(the source writes are unguarded and would panic out of range; theorem C9
shows all writes performed by the game stay in range). -/
def setCell (board : List (List BlockType)) (y x : Nat) : List (List BlockType) :=
  board.set y ((board.getD y []).set x BlockType.Filled)

/-- The all Empty 20 by 10 board built by TetrisGame::default. -/
def defaultBoard : List (List BlockType) :=
  List.replicate boardHeight (List.replicate boardWidth BlockType.Empty)

/-- The fixed shape catalog of Tetromino::new: I, O, T, L, J, S, Z. -/
def shapes : List (List (List Bool)) :=
  [ [[true, true, true, true],
     [false, false, false, false]],
    [[true, true],
     [true, true]],
    [[false, true, false],
     [true, true, true]],
    [[true, false, false],
     [true, true, true]],
    [[false, false, true],
     [true, true, true]],
    [[false, true, true],
     [true, true, false]],
    [[true, true, false],
     [false, true, true]] ]

/-- The mask transform of Tetromino::rotate: for an R row by C column mask
it builds a C by R mask with rotated[j][R-1-i] = blocks[i][j].  Writing
k = R-1-i, entry (j, k) of the result is blocks[R-1-k][j]. -/
def rotateBlocks (blocks : List (List Bool)) : List (List Bool) :=
  let rows := blocks.length
  let cols := (blocks.getD 0 []).length
  (List.range cols).map (fun j => (List.range rows).map (fun k => cellAt blocks (rows - 1 - k) j))

/-- Tetromino::rotate: replaces the mask, leaves the anchor unchanged. -/
def Tetromino.rotate (t : Tetromino) : Tetromino :=
  { t with blocks := rotateBlocks t.blocks }

/-- Tetromino::new with the random draw made explicit: k mod 7 selects the
catalog shape, the spawn anchor is x = (BOARD_WIDTH - maskWidth) / 2, y = 0. -/
def newTetromino (k : Nat) : Tetromino :=
  let shape := shapes.getD (k % shapes.length) []
  { blocks := shape
    x := ((boardWidth : Int) - ((shape.getD 0 []).length : Int)) / 2
    y := 0 }

/-- The shared cell loop of TetrisGame::can_move and
TetrisGame::is_valid_position (their Rust bodies are identical): every
occupied mask cell, translated to board coordinates (newX + j, newY + i),
must be inside the horizontal bounds and above the bottom, and cells with
nonnegative board row must not land on a Filled board cell. -/
def canMoveCells (board : List (List BlockType)) (blocks : List (List Bool))
    (newX newY : Int) : Bool :=
  (List.range blocks.length).all (fun i =>
    (List.range (blocks.getD i []).length).all (fun j =>
      if cellAt blocks i j = false then true
      else
        let boardX := newX + (j : Int)
        let boardY := newY + (i : Int)
        if boardX < 0 ∨ (boardWidth : Int) ≤ boardX ∨ (boardHeight : Int) ≤ boardY then false
        else if 0 ≤ boardY ∧ getCell board boardY.toNat boardX.toNat = BlockType.Filled then false
        else true))

/-- TetrisGame::can_move. -/
def TetrisGame.can_move (s : TetrisGame) (dx dy : Int) : Bool :=
  canMoveCells s.board s.current_piece.blocks (s.current_piece.x + dx) (s.current_piece.y + dy)

/-- TetrisGame::is_valid_position. -/
def TetrisGame.is_valid_position (s : TetrisGame) (piece : Tetromino) : Bool :=
  canMoveCells s.board piece.blocks piece.x piece.y

/-- One iteration of the inner loop of TetrisGame::merge_piece, at mask
cell (i, j): for an occupied cell with nonnegative board row, write Filled
at board position (y + i, x + j); otherwise do nothing (cells with
negative board row are silently dropped). -/
def mergeStep (p : Tetromino) (acc : List (List BlockType)) (i j : Nat) : List (List BlockType) :=
  if cellAt p.blocks i j = true then
    if 0 ≤ p.y + (i : Int) then
      setCell acc (p.y + (i : Int)).toNat (p.x + (j : Int)).toNat
    else acc
  else acc

/-- The inner loop of TetrisGame::merge_piece over mask row i. -/
def mergeRow (p : Tetromino) (acc : List (List BlockType)) (i : Nat) : List (List BlockType) :=
  (List.range (p.blocks.getD i []).length).foldl (fun acc2 j => mergeStep p acc2 i j) acc

/-- The board mutation of TetrisGame::merge_piece: both nested loops. -/
def mergeBlocks (board : List (List BlockType)) (p : Tetromino) : List (List BlockType) :=
  (List.range p.blocks.length).foldl (fun acc i => mergeRow p acc i) board

/-- TetrisGame::merge_piece. -/
def TetrisGame.merge_piece (s : TetrisGame) : TetrisGame :=
  { s with board := mergeBlocks s.board s.current_piece }

/-- The row test of clear_lines: every cell of the row equals Filled. -/
def isFullRow (row : List BlockType) : Bool :=
  row.all (fun block => block == BlockType.Filled)

/-- The while loop of TetrisGame::clear_lines, with explicit fuel.  While
y > 0: if row y is entirely Filled it is removed and a fresh Empty row is
inserted at the top, and the same index y is examined again; otherwise y is
decremented.  Returns the final board and the number of removed rows.
Theorem C10 shows the loop needs at most y + countFull board + 1 steps, so
the fuel of 40 supplied by clear_lines is never exhausted on 20 row boards. -/
def clearLoop : Nat → List (List BlockType) → Nat → (List (List BlockType)) × Nat
  | 0, b, _ => (b, 0)
  | fuel + 1, b, y =>
    if y = 0 then (b, 0)
    else if isFullRow (b.getD y []) = true then
      let b2 := List.replicate boardWidth BlockType.Empty :: b.eraseIdx y
      let r := clearLoop fuel b2 y
      (r.1, r.2 + 1)
    else clearLoop fuel b (y - 1)

/-- Number of entirely Filled rows of a board (the loop measure of C10). -/
def countFull (b : List (List BlockType)) : Nat :=
  b.countP (fun r => isFullRow r)

/-- TetrisGame::clear_lines: runs the scan loop from y = BOARD_HEIGHT - 1
and adds 100 per removed row to the score. -/
def TetrisGame.clear_lines (s : TetrisGame) : TetrisGame :=
  let r := clearLoop 40 s.board (boardHeight - 1)
  { s with board := r.1, score := s.score + r.2 * 100 }

/-- TetrisGame::update (the gravity tick, also invoked directly by the soft
drop key): no op when game_over; otherwise move down one row if possible,
else merge the piece, clear lines, spawn a new piece (choice index k), and
set game_over if the fresh spawn position is already invalid. -/
def TetrisGame.update (k : Nat) (s : TetrisGame) : TetrisGame :=
  if s.game_over = true then s
  else if s.can_move 0 1 = false then
    let s1 := s.merge_piece
    let s2 := s1.clear_lines
    let s3 := { s2 with current_piece := newTetromino k }
    if s3.can_move 0 0 = false then { s3 with game_over := true } else s3
  else
    { s with current_piece := { s.current_piece with y := s.current_piece.y + 1 } }

/-- TetrisGame::move_piece: horizontal step, applied only when valid.
Note that the source does not test game_over here. -/
def TetrisGame.move_piece (s : TetrisGame) (dx : Int) : TetrisGame :=
  if s.can_move dx 0 = true then
    { s with current_piece := { s.current_piece with x := s.current_piece.x + dx } }
  else s

/-- TetrisGame::rotate_piece: rotates a copy of the piece, then the Rust
loop for test_x in -1..=1 tries the shifted anchors x - 1, x, x + 1 in that
order and keeps the first valid candidate; if none is valid the piece is
left unmodified.  Note that the source does not test game_over here. -/
def TetrisGame.rotate_piece (s : TetrisGame) : TetrisGame :=
  let rot := s.current_piece.rotate
  if s.is_valid_position { rot with x := s.current_piece.x + (-1) } = true then
    { s with current_piece := { rot with x := s.current_piece.x + (-1) } }
  else if s.is_valid_position { rot with x := s.current_piece.x + 0 } = true then
    { s with current_piece := { rot with x := s.current_piece.x + 0 } }
  else if s.is_valid_position { rot with x := s.current_piece.x + 1 } = true then
    { s with current_piece := { rot with x := s.current_piece.x + 1 } }
  else s

/-- The while loop of TetrisGame::hard_drop, with explicit fuel: while the
piece can move down one row, increment y. -/
def dropLoop : Nat → TetrisGame → TetrisGame
  | 0, s => s
  | fuel + 1, s =>
    if s.can_move 0 1 = true then
      dropLoop fuel { s with current_piece := { s.current_piece with y := s.current_piece.y + 1 } }
    else s

/-- TetrisGame::hard_drop: run the descent loop, then update once (which
merges, since no further downward move is possible).  The supplied fuel
(20 - y), nonnegative part, is exact whenever the mask has at least one
occupied cell, since the loop then stops at the latest when the lowest
occupied cell reaches row 19 (for an all false mask the Rust loop would
not terminate, but every mask the game builds is a rotation of a catalog
shape and is occupied). -/
def TetrisGame.hard_drop (k : Nat) (s : TetrisGame) : TetrisGame :=
  TetrisGame.update k (dropLoop ((20 - s.current_piece.y).toNat) s)

/-- TetrisGame::default with the random draw made explicit: fresh all
Empty board, freshly spawned piece, score 0, game_over false. -/
def initGame (k : Nat) : TetrisGame :=
  { board := defaultBoard
    current_piece := newTetromino k
    game_over := false
    score := 0 }

/-- The game states reachable from a fresh game by the commands the egui
layer can issue: the gravity tick and the soft drop key (both run update),
the horizontal moves with dx in {-1, +1}, rotation, and hard drop.  Spawn
choices are arbitrary catalog indices. -/
inductive Reachable : TetrisGame → Prop
  | init (k : Nat) : Reachable (initGame k)
  | tick (k : Nat) {s : TetrisGame} : Reachable s → Reachable (s.update k)
  | move {s : TetrisGame} (dx : Int) : dx = -1 ∨ dx = 1 → Reachable s → Reachable (s.move_piece dx)
  | rot {s : TetrisGame} : Reachable s → Reachable s.rotate_piece
  | drop (k : Nat) {s : TetrisGame} : Reachable s → Reachable (s.hard_drop k)

/-- Rotation search with a parametric offset order, used to compare the
order claimed by the specification with the order the source implements:
the first offset t in offs for which the shifted rotated piece is valid is
accepted, otherwise the state is unchanged. -/
def tryRotateOffsets (s : TetrisGame) (offs : List Int) : TetrisGame :=
  let rot := s.current_piece.rotate
  match offs.find? (fun t => s.is_valid_position { rot with x := s.current_piece.x + t }) with
  | some t => { s with current_piece := { rot with x := s.current_piece.x + t } }
  | none => s

/-- Index of the bottom most mask row containing at least one occupied
cell (meaningful for masks with at least one occupied cell). -/
def bottomOcc (blocks : List (List Bool)) : Nat :=
  blocks.length - 1 - blocks.reverse.findIdx (fun row => row.any (fun c => c))

/-! ### Concrete states used as test inputs in the theorems below -/

/-- An all Empty board row. -/
def emptyRow : List BlockType := List.replicate boardWidth BlockType.Empty

/-- An all Filled board row. -/
def fullRow : List BlockType := List.replicate boardWidth BlockType.Filled

/-- The O shape of the catalog. -/
def oShape : List (List Bool) := [[true, true], [true, true]]

/-- A board whose column 4 is Filled in every row, as left behind by a
stack that reached the ceiling; the O spawn footprint (columns 4 and 5 of
rows 0 and 1) overlaps it. -/
def colBoard : List (List BlockType) :=
  List.replicate boardHeight
    [BlockType.Empty, BlockType.Empty, BlockType.Empty, BlockType.Empty, BlockType.Filled,
     BlockType.Empty, BlockType.Empty, BlockType.Empty, BlockType.Empty, BlockType.Empty]

/-- A terminal state: the freshly spawned O piece at (4, 0) overlaps the
Filled column of colBoard, so game_over is set. -/
def sOver : TetrisGame :=
  { board := colBoard
    current_piece := { blocks := oShape, x := 4, y := 0 }
    game_over := true
    score := 0 }

/-- A running game on the empty board with the O piece at its spawn anchor. -/
def sEmptyO : TetrisGame :=
  { board := defaultBoard
    current_piece := { blocks := oShape, x := 4, y := 0 }
    game_over := false
    score := 0 }

/-- The board whose bottom row (row 19) is entirely Filled and whose other
rows are Empty. -/
def row19Board : List (List BlockType) :=
  List.replicate 19 emptyRow ++ [fullRow]

/-- The board whose top row (row 0) is entirely Filled and whose other rows
are Empty. -/
def topFullBoard : List (List BlockType) :=
  fullRow :: List.replicate 19 emptyRow

/-! ### Generic list access helpers -/

lemma getD_of_lt {α : Type} (l : List α) (d : α) {n : Nat} (h : n < l.length) :
    l.getD n d = l[n] := by
  simp [List.getD_eq_getElem?_getD, List.getElem?_eq_getElem h]

lemma getD_of_ge {α : Type} (l : List α) (d : α) {n : Nat} (h : l.length ≤ n) :
    l.getD n d = d := by
  simp [List.getD_eq_getElem?_getD, List.getElem?_eq_none h]

lemma cellAt_bounds {m : List (List Bool)} {i j : Nat} (h : cellAt m i j = true) :
    i < m.length ∧ j < (m.getD i []).length := by
  constructor
  · by_contra hi
    push_neg at hi
    rw [cellAt, getD_of_ge m [] hi] at h
    simp at h
  · by_contra hj
    push_neg at hj
    rw [cellAt, getD_of_ge _ _ hj] at h
    exact Bool.false_ne_true h

lemma boardWidth_int : ((boardWidth : Nat) : Int) = 10 := rfl

lemma boardHeight_int : ((boardHeight : Nat) : Int) = 20 := rfl

/-! ### Characterization of the collision predicate -/

lemma canMoveCells_true_iff (board : List (List BlockType)) (blocks : List (List Bool))
    (nx ny : Int) :
    canMoveCells board blocks nx ny = true ↔
      ∀ i j : Nat, cellAt blocks i j = true →
        0 ≤ nx + (j : Int) ∧ nx + (j : Int) < 10 ∧ ny + (i : Int) < 20 ∧
          (0 ≤ ny + (i : Int) →
            getCell board (ny + (i : Int)).toNat (nx + (j : Int)).toNat ≠ BlockType.Filled) := by
  unfold canMoveCells
  simp only [List.all_eq_true, List.mem_range, boardWidth_int, boardHeight_int]
  constructor
  · intro h i j hc
    obtain ⟨hi, hj⟩ := cellAt_bounds hc
    have hb := h i hi j hj
    rw [if_neg (by simp [hc])] at hb
    by_cases h1 : nx + (j : Int) < 0 ∨ (10 : Int) ≤ nx + (j : Int) ∨ (20 : Int) ≤ ny + (i : Int)
    · rw [if_pos h1] at hb
      exact absurd hb (by simp)
    · rw [if_neg h1] at hb
      push_neg at h1
      refine ⟨h1.1, h1.2.1, h1.2.2, ?_⟩
      intro hy hfill
      rw [if_pos ⟨hy, hfill⟩] at hb
      exact absurd hb (by simp)
  · intro h i hi j hj
    by_cases hc : cellAt blocks i j = true
    · obtain ⟨h1, h2, h3, h4⟩ := h i j hc
      rw [if_neg (by simp [hc])]
      rw [if_neg (by push_neg; exact ⟨h1, h2, h3⟩)]
      rw [if_neg ?_]
      intro hcontr
      exact h4 hcontr.1 hcontr.2
    · simp only [Bool.not_eq_true] at hc
      rw [if_pos hc]

lemma getCell_defaultBoard (y x : Nat) : getCell defaultBoard y x ≠ BlockType.Filled := by
  unfold getCell defaultBoard
  by_cases hy : y < boardHeight <;> by_cases hx : x < boardWidth <;>
    simp [List.getD_eq_getElem?_getD, List.getElem?_replicate, hy, hx]

lemma canMoveCells_default_iff (blocks : List (List Bool)) (nx ny : Int) :
    canMoveCells defaultBoard blocks nx ny = true ↔
      ∀ i j : Nat, cellAt blocks i j = true →
        0 ≤ nx + (j : Int) ∧ nx + (j : Int) < 10 ∧ ny + (i : Int) < 20 := by
  rw [canMoveCells_true_iff]
  constructor
  · intro h i j hc
    obtain ⟨h1, h2, h3, _⟩ := h i j hc
    exact ⟨h1, h2, h3⟩
  · intro h i j hc
    obtain ⟨h1, h2, h3⟩ := h i j hc
    exact ⟨h1, h2, h3, fun _ => getCell_defaultBoard _ _⟩

/-- C3: the collision predicate canPlace (TetrisGame::can_move) returns
false exactly when some occupied cell of the piece translated by (dx, dy)
leaves the horizontal bounds (x < 0 or 10 <= x), passes the bottom bound
(20 <= y), or has nonnegative board row and lands on a Filled board cell;
it returns true otherwise.  In particular occupied cells with negative
board row are exempt from the Filled cell check but still subject to the
horizontal and bottom bounds.  The predicate is a pure function of the
state in this embedding, so it mutates nothing. -/
theorem claimC3_can_move_characterization (s : TetrisGame) (dx dy : Int) :
    s.can_move dx dy = false ↔
      ∃ i j : Nat, cellAt s.current_piece.blocks i j = true ∧
        (s.current_piece.x + dx + (j : Int) < 0 ∨
         10 ≤ s.current_piece.x + dx + (j : Int) ∨
         20 ≤ s.current_piece.y + dy + (i : Int) ∨
         (0 ≤ s.current_piece.y + dy + (i : Int) ∧
          getCell s.board (s.current_piece.y + dy + (i : Int)).toNat
            (s.current_piece.x + dx + (j : Int)).toNat = BlockType.Filled)) := by
  unfold TetrisGame.can_move
  constructor
  · intro h
    have hne : ¬ (canMoveCells s.board s.current_piece.blocks
        (s.current_piece.x + dx) (s.current_piece.y + dy) = true) := by
      rw [h]; simp
    rw [canMoveCells_true_iff] at hne
    push_neg at hne
    obtain ⟨i, j, hc, hviol⟩ := hne
    refine ⟨i, j, hc, ?_⟩
    rcases lt_or_le (s.current_piece.x + dx + (j : Int)) 0 with hA | hA
    · exact Or.inl hA
    rcases le_or_lt 10 (s.current_piece.x + dx + (j : Int)) with hB | hB
    · exact Or.inr (Or.inl hB)
    rcases le_or_lt 20 (s.current_piece.y + dy + (i : Int)) with hC | hC
    · exact Or.inr (Or.inr (Or.inl hC))
    obtain ⟨hD, hE⟩ := hviol hA hB hC
    exact Or.inr (Or.inr (Or.inr ⟨hD, hE⟩))
  · rintro ⟨i, j, hc, hviol⟩
    rw [Bool.eq_false_iff]
    intro htrue
    rw [canMoveCells_true_iff] at htrue
    obtain ⟨h1, h2, h3, h4⟩ := htrue i j hc
    rcases hviol with v | v | v | ⟨vD, vE⟩
    · omega
    · omega
    · omega
    · exact h4 vD vE

/-! ### Frame facts about the hard drop descent loop -/

lemma dropLoop_frame : ∀ (f : Nat) (s : TetrisGame),
    (dropLoop f s).board = s.board ∧ (dropLoop f s).score = s.score ∧
    (dropLoop f s).game_over = s.game_over ∧
    (dropLoop f s).current_piece.blocks = s.current_piece.blocks ∧
    (dropLoop f s).current_piece.x = s.current_piece.x := by
  intro f
  induction f with
  | zero => intro s; exact ⟨rfl, rfl, rfl, rfl, rfl⟩
  | succ n ih =>
    intro s
    rw [dropLoop]
    by_cases h : s.can_move 0 1 = true
    · rw [if_pos h]
      exact ih { s with current_piece := { s.current_piece with y := s.current_piece.y + 1 } }
    · rw [if_neg h]
      exact ⟨rfl, rfl, rfl, rfl, rfl⟩

/-- C1 (amended): once the terminal flag is set, update (the gravity tick
and the soft drop command) leaves the state unchanged, and move_piece,
rotate_piece and hard_drop leave the board, the score and the terminal
flag unchanged; but the latter three are not guarded by the flag in the
source, so they may still change the current piece (move_piece its anchor
x, rotate_piece its mask and anchor x, hard_drop its anchor y). -/
theorem claimC1_terminal_commands (s : TetrisGame) (k : Nat) (dx : Int)
    (h : s.game_over = true) :
    s.update k = s ∧
    ((s.move_piece dx).board = s.board ∧ (s.move_piece dx).score = s.score ∧
     (s.move_piece dx).game_over = true ∧
     (s.move_piece dx).current_piece.blocks = s.current_piece.blocks ∧
     (s.move_piece dx).current_piece.y = s.current_piece.y) ∧
    (s.rotate_piece.board = s.board ∧ s.rotate_piece.score = s.score ∧
     s.rotate_piece.game_over = true ∧
     s.rotate_piece.current_piece.y = s.current_piece.y) ∧
    ((s.hard_drop k).board = s.board ∧ (s.hard_drop k).score = s.score ∧
     (s.hard_drop k).game_over = true ∧
     (s.hard_drop k).current_piece.blocks = s.current_piece.blocks ∧
     (s.hard_drop k).current_piece.x = s.current_piece.x) := by
  have hupd : ∀ t : TetrisGame, t.game_over = true → t.update k = t := by
    intro t ht
    unfold TetrisGame.update
    rw [if_pos ht]
  refine ⟨hupd s h, ?_, ?_, ?_⟩
  · unfold TetrisGame.move_piece
    by_cases hm : s.can_move dx 0 = true
    · rw [if_pos hm]
      exact ⟨rfl, rfl, h, rfl, rfl⟩
    · rw [if_neg hm]
      exact ⟨rfl, rfl, h, rfl, rfl⟩
  · unfold TetrisGame.rotate_piece
    by_cases h1 : s.is_valid_position
        { s.current_piece.rotate with x := s.current_piece.x + (-1) } = true
    · rw [if_pos h1]
      exact ⟨rfl, rfl, h, rfl⟩
    · rw [if_neg h1]
      by_cases h2 : s.is_valid_position
          { s.current_piece.rotate with x := s.current_piece.x + 0 } = true
      · rw [if_pos h2]
        exact ⟨rfl, rfl, h, rfl⟩
      · rw [if_neg h2]
        by_cases h3 : s.is_valid_position
            { s.current_piece.rotate with x := s.current_piece.x + 1 } = true
        · rw [if_pos h3]
          exact ⟨rfl, rfl, h, rfl⟩
        · rw [if_neg h3]
          exact ⟨rfl, rfl, h, rfl⟩
  · have hd := dropLoop_frame ((20 - s.current_piece.y).toNat) s
    have hdo : (dropLoop ((20 - s.current_piece.y).toNat) s).game_over = true :=
      hd.2.2.1.trans h
    unfold TetrisGame.hard_drop
    rw [hupd _ hdo]
    exact ⟨hd.1, hd.2.1, hdo, hd.2.2.2.1, hd.2.2.2.2⟩

/-- C1 (counterexample): in the terminal state sOver (column 4 Filled in
every row, spawned O piece at (4, 0), game_over set) the move right
command still changes the game state: the source move_piece does not test
the terminal flag, and moving right is valid there, so the piece anchor
moves from x = 4 to x = 5. -/
theorem claimC1_counterexample :
    sOver.game_over = true ∧ sOver.move_piece 1 ≠ sOver := by
  exact ⟨rfl, by decide⟩

/-- C1 witness: the amended theorem applied at the concrete terminal state
sOver. -/
theorem claimC1_witness :
    sOver.update 0 = sOver ∧ (sOver.hard_drop 0).board = sOver.board ∧
      (sOver.hard_drop 0).game_over = true := by
  refine ⟨(claimC1_terminal_commands sOver 0 1 rfl).1,
    (claimC1_terminal_commands sOver 0 1 rfl).2.2.2.1,
    (claimC1_terminal_commands sOver 0 1 rfl).2.2.2.2.2.1⟩

/-- C2 (amended): rotate_piece computes the 90 degree clockwise rotated
mask and then tests the anchor x offsets in the order -1, 0, +1 (the Rust
loop runs for test_x in -1..=1), keeping y unchanged; the piece is
replaced by the rotated piece at the first offset whose whole board
validity check succeeds, and the state is unchanged when all three
offsets fail.  The specification instead claims the order 0, -1, +1; the
counterexample theorem separates the two orders. -/
theorem claimC2_rotation_offset_order (s : TetrisGame) :
    s.rotate_piece = tryRotateOffsets s [-1, 0, 1] := by
  simp only [TetrisGame.rotate_piece, tryRotateOffsets]
  by_cases h1 : s.is_valid_position
      { blocks := s.current_piece.rotate.blocks, x := s.current_piece.x + (-1),
        y := s.current_piece.rotate.y } = true
  · rw [if_pos h1, @List.find?_cons_of_pos _
      (fun t => s.is_valid_position
        { blocks := s.current_piece.rotate.blocks, x := s.current_piece.x + t,
          y := s.current_piece.rotate.y }) (-1) [0, 1] h1]
  · rw [if_neg h1, List.find?_cons_of_neg _ (by simpa using h1)]
    by_cases h2 : s.is_valid_position
        { blocks := s.current_piece.rotate.blocks, x := s.current_piece.x + 0,
          y := s.current_piece.rotate.y } = true
    · rw [if_pos h2, @List.find?_cons_of_pos _
        (fun t => s.is_valid_position
          { blocks := s.current_piece.rotate.blocks, x := s.current_piece.x + t,
            y := s.current_piece.rotate.y }) 0 [1] h2]
    · rw [if_neg h2, List.find?_cons_of_neg _ (by simpa using h2)]
      by_cases h3 : s.is_valid_position
          { blocks := s.current_piece.rotate.blocks, x := s.current_piece.x + 1,
            y := s.current_piece.rotate.y } = true
      · rw [if_pos h3, @List.find?_cons_of_pos _
          (fun t => s.is_valid_position
            { blocks := s.current_piece.rotate.blocks, x := s.current_piece.x + t,
              y := s.current_piece.rotate.y }) 1 [] h3]
      · rw [if_neg h3, List.find?_cons_of_neg _ (by simpa using h3)]
        rfl

/-- C2 (counterexample): on the empty board with the O piece at (4, 0)
both the unshifted anchor and the left shifted anchor are valid for the
rotated mask, so the claimed order (0 first) would keep x = 4, but the
source tries -1 first and moves the piece to x = 3. -/
theorem claimC2_counterexample :
    sEmptyO.rotate_piece ≠ tryRotateOffsets sEmptyO [0, -1, 1] ∧
      (sEmptyO.rotate_piece).current_piece.x = 3 ∧
      (tryRotateOffsets sEmptyO [0, -1, 1]).current_piece.x = 4 := by
  refine ⟨by decide, by decide, by decide⟩

/-! ### The clear_lines scan loop -/

lemma countP_eraseIdx_add {α : Type} (p : α → Bool) :
    ∀ (l : List α) (i : Nat) (h : i < l.length),
      (l.eraseIdx i).countP p + (if p (l.get ⟨i, h⟩) then 1 else 0) = l.countP p := by
  intro l
  induction l with
  | nil => intro i h; simp at h
  | cons a t ih =>
    intro i h
    cases i with
    | zero =>
      simp only [List.eraseIdx, List.get]
      rw [List.countP_cons]
    | succ n =>
      have hn : n < t.length := by simpa using h
      simp only [List.eraseIdx, List.get]
      rw [List.countP_cons, List.countP_cons]
      have := ih n hn
      omega

lemma isFullRow_empty_replicate :
    isFullRow (List.replicate boardWidth BlockType.Empty) = false := by decide

lemma countFull_clear_step {b : List (List BlockType)} {y : Nat} (hy : y < b.length)
    (hfull : isFullRow (b.getD y []) = true) :
    countFull (List.replicate boardWidth BlockType.Empty :: b.eraseIdx y) + 1 = countFull b := by
  unfold countFull
  rw [List.countP_cons]
  have h0 : isFullRow (List.replicate boardWidth BlockType.Empty) = false :=
    isFullRow_empty_replicate
  rw [getD_of_lt _ _ hy] at hfull
  have hcount := countP_eraseIdx_add (fun r => isFullRow r) b y hy
  simp only [List.get_eq_getElem] at hcount
  simp [hfull] at hcount
  simp [h0]
  omega

lemma clearLoop_fuel_congr :
    ∀ (μ : Nat) (b : List (List BlockType)) (y f1 f2 : Nat),
      y + countFull b ≤ μ → y < b.length → μ < f1 → μ < f2 →
      clearLoop f1 b y = clearLoop f2 b y := by
  intro μ
  induction μ using Nat.strong_induction_on with
  | _ μ ih =>
    intro b y f1 f2 hμ hy hf1 hf2
    cases f1 with
    | zero => omega
    | succ f1 =>
      cases f2 with
      | zero => omega
      | succ f2 =>
        conv_lhs => rw [clearLoop]
        conv_rhs => rw [clearLoop]
        by_cases h0 : y = 0
        · rw [if_pos h0, if_pos h0]
        · rw [if_neg h0, if_neg h0]
          by_cases hfull : isFullRow (b.getD y []) = true
          · rw [if_pos hfull, if_pos hfull]
            have hcf := countFull_clear_step hy hfull
            have hlen2 : (List.replicate boardWidth BlockType.Empty :: b.eraseIdx y).length
                = b.length := by
              simp [List.length_eraseIdx, hy]
              omega
            have hrec : clearLoop f1 (List.replicate boardWidth BlockType.Empty :: b.eraseIdx y) y
                = clearLoop f2 (List.replicate boardWidth BlockType.Empty :: b.eraseIdx y) y := by
              apply ih (μ - 1) (by omega)
              · omega
              · omega
              · omega
              · omega
            simp only [hrec]
          · rw [if_neg hfull, if_neg hfull]
            apply ih (μ - 1) (by omega)
            · omega
            · omega
            · omega
            · omega

lemma clearLoop_no_full :
    ∀ (y : Nat) (b : List (List BlockType)) (f : Nat), y < b.length →
      (∀ i : Nat, 1 ≤ i → i ≤ y → isFullRow (b.getD i []) = false) → y < f →
      clearLoop f b y = (b, 0) := by
  intro y
  induction y with
  | zero =>
    intro b f _ _ hf
    cases f with
    | zero => omega
    | succ f => rw [clearLoop]; rw [if_pos rfl]
  | succ n ih =>
    intro b f hy hno hf
    cases f with
    | zero => omega
    | succ f =>
      rw [clearLoop]
      rw [if_neg (Nat.succ_ne_zero n)]
      have hrow := hno (n + 1) (by omega) (by omega)
      rw [if_neg (by simp only [hrow]; simp)]
      have : n + 1 - 1 = n := rfl
      rw [this]
      exact ih b f (by omega) (fun i h1 h2 => hno i h1 (by omega)) (by omega)

lemma clear_lines_id (s : TetrisGame) (hlen : s.board.length = 20)
    (hnofull : ∀ r ∈ s.board, isFullRow r = false) : s.clear_lines = s := by
  unfold TetrisGame.clear_lines
  have h19 : clearLoop 40 s.board (boardHeight - 1) = (s.board, 0) := by
    apply clearLoop_no_full
    · simp only [boardHeight, hlen]
      omega
    · intro i h1 h2
      have hi : i < s.board.length := by
        simp only [boardHeight] at h2
        omega
      rw [getD_of_lt _ _ hi]
      exact hnofull _ (List.getElem_mem hi)
    · simp [boardHeight]
  simp only [h19]
  cases s
  simp

/-- C4: the clear_lines scan starts at row 19, re-examines the same index
after a removal (visible in the clearLoop definition, whose full-row
branch recurses with the same y), and stops as soon as index 0 is reached:
the loop at index 0 returns immediately for every board and every fuel,
and consequently a board whose row 0 is entirely Filled while rows 1..19
are not is left completely unchanged by clear_lines, with the score
unchanged: the full top row is never removed. -/
theorem claimC4_row_zero_never_cleared :
    (∀ (f : Nat) (b : List (List BlockType)), clearLoop f b 0 = (b, 0)) ∧
    (∀ s : TetrisGame, s.board.length = 20 →
      isFullRow (s.board.getD 0 []) = true →
      (∀ i : Nat, i < 20 → 1 ≤ i → isFullRow (s.board.getD i []) = false) →
      s.clear_lines = s) := by
  constructor
  · intro f b
    cases f with
    | zero => rfl
    | succ f => rw [clearLoop]; rw [if_pos rfl]
  · intro s hlen _ hno
    unfold TetrisGame.clear_lines
    have h19 : clearLoop 40 s.board (boardHeight - 1) = (s.board, 0) := by
      apply clearLoop_no_full
      · simp only [boardHeight, hlen]
        omega
      · intro i h1 h2
        exact hno i (by simp only [boardHeight] at h2; omega) h1
      · simp [boardHeight]
    simp only [h19]
    cases s
    simp

/-- C4 witness: the boundary theorem applied to concrete inputs: the loop
invoked at index 0 stops at once on the bottom-full board, and the game
whose board has only its top row full passes through clear_lines
unchanged. -/
theorem claimC4_witness :
    clearLoop 5 row19Board 0 = (row19Board, 0) ∧
      TetrisGame.clear_lines
          { board := topFullBoard, current_piece := { blocks := oShape, x := 4, y := 0 },
            game_over := false, score := 0 } =
        { board := topFullBoard, current_piece := { blocks := oShape, x := 4, y := 0 },
          game_over := false, score := 0 } := by
  constructor
  · exact claimC4_row_zero_never_cleared.1 5 row19Board
  · exact claimC4_row_zero_never_cleared.2 _ (by decide) (by decide) (by decide)

/-- C7: on the board whose bottom row (row 19) is entirely Filled and
whose other rows are Empty, clear_lines yields the all Empty board and
adds exactly 100 (one cleared row) to the score, for every piece, flag
and starting score. -/
theorem claimC7_single_bottom_row (p : Tetromino) (go : Bool) (sc : Nat) :
    TetrisGame.clear_lines { board := row19Board, current_piece := p, game_over := go, score := sc } =
      { board := defaultBoard, current_piece := p, game_over := go, score := sc + 100 } := by
  have h : clearLoop 40 row19Board (boardHeight - 1) = (defaultBoard, 1) := by decide
  unfold TetrisGame.clear_lines
  simp only [h]

/-- C8: on every 20 row board without an entirely Filled row, clear_lines
changes neither the board nor the score (nor anything else in the state). -/
theorem claimC8_no_full_row_noop (s : TetrisGame) (hlen : s.board.length = 20)
    (hnofull : ∀ r ∈ s.board, isFullRow r = false) :
    s.clear_lines.board = s.board ∧ s.clear_lines.score = s.score ∧ s.clear_lines = s := by
  have h := clear_lines_id s hlen hnofull
  exact ⟨by rw [h], by rw [h], h⟩

/-- C8 witness: the frame theorem applied to the running game on the empty
board. -/
theorem claimC8_witness :
    sEmptyO.clear_lines.board = sEmptyO.board ∧ sEmptyO.clear_lines = sEmptyO := by
  refine ⟨(claimC8_no_full_row_noop sEmptyO (by decide) (by decide)).1,
    (claimC8_no_full_row_noop sEmptyO (by decide) (by decide)).2.2⟩

/-- C10: the clear_lines scan terminates on every 20 row board.  In the
fuel embedding this reads: the loop result is independent of the fuel once
the fuel exceeds the measure y + countFull b (each iteration decrements y
or removes one entirely Filled row, so the measure strictly decreases);
in particular on 20 row boards every fuel of at least 40 gives the result
of the fuel 40 used by clear_lines. -/
theorem claimC10_clear_loop_terminates :
    (∀ (b : List (List BlockType)) (y f : Nat), y < b.length → y + countFull b < f →
      clearLoop f b y = clearLoop (y + countFull b + 1) b y) ∧
    (∀ (b : List (List BlockType)) (f : Nat), b.length = 20 → 40 ≤ f →
      clearLoop f b 19 = clearLoop 40 b 19) := by
  constructor
  · intro b y f hy hf
    exact clearLoop_fuel_congr (y + countFull b) b y f (y + countFull b + 1)
      le_rfl hy hf (by omega)
  · intro b f hlen hf
    have hcp : countFull b ≤ b.length := by
      unfold countFull
      exact List.countP_le_length _
    apply clearLoop_fuel_congr (19 + countFull b) b 19 f 40 le_rfl (by omega) (by omega) (by omega)

/-- C10 witness: fuel independence applied to the empty board at the usual
start index 19. -/
theorem claimC10_witness :
    clearLoop 45 defaultBoard 19 = clearLoop (19 + countFull defaultBoard + 1) defaultBoard 19 :=
  claimC10_clear_loop_terminates.1 defaultBoard 19 45 (by decide) (by decide)

/-! ### The rotation transform -/

lemma getD_map_range {α : Type} (f : Nat → α) (d : α) {n i : Nat} (h : i < n) :
    ((List.range n).map f).getD i d = f i := by
  rw [getD_of_lt _ _ (by simpa using h)]
  simp

lemma width_of_rect {m : List (List Bool)} {C : Nat} (hm : m ≠ [])
    (hrect : ∀ r ∈ m, r.length = C) : (m.getD 0 []).length = C := by
  have h0 : 0 < m.length := List.length_pos.mpr hm
  rw [getD_of_lt _ _ h0]
  exact hrect _ (List.getElem_mem h0)

lemma rotateBlocks_length (m : List (List Bool)) :
    (rotateBlocks m).length = (m.getD 0 []).length := by
  simp [rotateBlocks]

lemma rotateBlocks_rect (m : List (List Bool)) :
    ∀ r ∈ rotateBlocks m, r.length = m.length := by
  intro r hr
  simp only [rotateBlocks, List.mem_map, List.mem_range] at hr
  obtain ⟨j, _, rfl⟩ := hr
  simp

lemma cellAt_rotateBlocks {m : List (List Bool)} {C : Nat} (hm : m ≠ [])
    (hrect : ∀ r ∈ m, r.length = C) {j k : Nat} (hj : j < C) (hk : k < m.length) :
    cellAt (rotateBlocks m) j k = cellAt m (m.length - 1 - k) j := by
  have hC0 : (m.getD 0 []).length = C := width_of_rect hm hrect
  have h1 : (rotateBlocks m).getD j []
      = (List.range m.length).map (fun k => cellAt m (m.length - 1 - k) j) := by
    simp only [rotateBlocks]
    rw [hC0]
    exact getD_map_range _ _ hj
  calc cellAt (rotateBlocks m) j k
      = ((rotateBlocks m).getD j []).getD k false := rfl
    _ = ((List.range m.length).map (fun k => cellAt m (m.length - 1 - k) j)).getD k false := by
        rw [h1]
    _ = cellAt m (m.length - 1 - k) j := getD_map_range _ _ hk

lemma cellAt_rotateBlocks_twice {m : List (List Bool)} {C : Nat} (hm : m ≠ []) (hC : 0 < C)
    (hrect : ∀ r ∈ m, r.length = C) {a b : Nat} (ha : a < m.length) (hb : b < C) :
    cellAt (rotateBlocks (rotateBlocks m)) a b = cellAt m (m.length - 1 - a) (C - 1 - b) := by
  have hR : 0 < m.length := List.length_pos.mpr hm
  have hlen2 : (rotateBlocks m).length = C := by
    rw [rotateBlocks_length]
    exact width_of_rect hm hrect
  have hm2 : rotateBlocks m ≠ [] := by
    apply List.length_pos.mp
    omega
  have h1 : cellAt (rotateBlocks (rotateBlocks m)) a b
      = cellAt (rotateBlocks m) ((rotateBlocks m).length - 1 - b) a := by
    exact cellAt_rotateBlocks hm2 (rotateBlocks_rect m) ha (by omega)
  rw [h1, hlen2]
  exact cellAt_rotateBlocks hm hrect (by omega) (by omega)

lemma cellAt_of_lt {m : List (List Bool)} {i j : Nat} (hi : i < m.length)
    (hj : j < m[i].length) : cellAt m i j = m[i][j] := by
  unfold cellAt
  have h1 : m.getD i [] = m[i] := getD_of_lt _ _ hi
  rw [h1]
  exact getD_of_lt _ _ hj

/-- C6 (amended): for every rectangular boolean mask with at least one row
and at least one column, applying the 90 degree clockwise rotation of
Tetromino::rotate four times yields the original mask, cell for cell.  (On
degenerate masks with zero columns the source loses the mask or panics,
see the counterexample.) -/
theorem claimC6_rotate_four_times (m : List (List Bool)) (C : Nat) (hm : m ≠ []) (hC : 0 < C)
    (hrect : ∀ r ∈ m, r.length = C) :
    rotateBlocks (rotateBlocks (rotateBlocks (rotateBlocks m))) = m := by
  have hR : 0 < m.length := List.length_pos.mpr hm
  have hlenRot : (rotateBlocks m).length = C := by
    rw [rotateBlocks_length]
    exact width_of_rect hm hrect
  have hmRot_ne : rotateBlocks m ≠ [] := List.length_pos.mp (by omega)
  have hlen2 : (rotateBlocks (rotateBlocks m)).length = m.length := by
    rw [rotateBlocks_length]
    exact width_of_rect hmRot_ne (rotateBlocks_rect m)
  have hrect2 : ∀ r ∈ rotateBlocks (rotateBlocks m), r.length = C := by
    intro r hr
    rw [rotateBlocks_rect (rotateBlocks m) r hr, hlenRot]
  have hm2_ne : rotateBlocks (rotateBlocks m) ≠ [] := List.length_pos.mp (by omega)
  have hlenRot3 : (rotateBlocks (rotateBlocks (rotateBlocks m))).length = C := by
    rw [rotateBlocks_length]
    exact width_of_rect hm2_ne hrect2
  have hm3_ne : rotateBlocks (rotateBlocks (rotateBlocks m)) ≠ [] :=
    List.length_pos.mp (by omega)
  have hlen4 : (rotateBlocks (rotateBlocks (rotateBlocks (rotateBlocks m)))).length
      = m.length := by
    rw [rotateBlocks_length]
    have := width_of_rect hm3_ne (rotateBlocks_rect (rotateBlocks (rotateBlocks m)))
    rw [this, hlen2]
  have hrect4 : ∀ r ∈ rotateBlocks (rotateBlocks (rotateBlocks (rotateBlocks m))),
      r.length = C := by
    intro r hr
    rw [rotateBlocks_rect _ r hr, hlenRot3]
  have hcell : ∀ a b : Nat, a < m.length → b < C →
      cellAt (rotateBlocks (rotateBlocks (rotateBlocks (rotateBlocks m)))) a b
        = cellAt m a b := by
    intro a b ha hb
    rw [cellAt_rotateBlocks_twice hm2_ne hC hrect2 (by omega) hb]
    rw [hlen2]
    rw [cellAt_rotateBlocks_twice hm hC hrect (by omega) (by omega)]
    have e1 : m.length - 1 - (m.length - 1 - a) = a := by omega
    have e2 : C - 1 - (C - 1 - b) = b := by omega
    rw [e1, e2]
  apply List.ext_getElem hlen4
  intro i hi1 hi2
  apply List.ext_getElem
  · rw [hrect4 _ (List.getElem_mem hi1), hrect _ (List.getElem_mem hi2)]
  · intro j hj1 hj2
    have hjC : j < C := by
      rw [hrect4 _ (List.getElem_mem hi1)] at hj1
      exact hj1
    rw [← cellAt_of_lt hi1 hj1, ← cellAt_of_lt hi2 hj2]
    exact hcell i j hi2 hjC

/-- C6 (counterexample): the claim quantifies over every rectangular grid
of booleans, but on the 1 by 0 grid the first rotation produces the grid
with no rows (the Rust code would then panic on blocks[0] at the second
rotation; the totalized embedding keeps the empty grid), so rotating four
times does not return the original grid. -/
theorem claimC6_counterexample :
    rotateBlocks (rotateBlocks (rotateBlocks (rotateBlocks [[]]))) ≠ ([[]] : List (List Bool)) := by
  decide

/-- C6 witness: the amended theorem applied to the I mask of the catalog
(2 rows by 4 columns). -/
theorem claimC6_witness :
    rotateBlocks (rotateBlocks (rotateBlocks (rotateBlocks (shapes.getD 0 []))))
      = shapes.getD 0 [] :=
  claimC6_rotate_four_times (shapes.getD 0 []) 4 (by decide) (by decide) (by decide)

/-! ### Branch lemmas for update and the validity invariant -/

lemma update_terminal (k : Nat) (s : TetrisGame) (hgo : s.game_over = true) :
    s.update k = s := by
  unfold TetrisGame.update
  rw [if_pos hgo]

lemma update_fall_branch (k : Nat) (s : TetrisGame) (hgo : s.game_over = false)
    (hdown : s.can_move 0 1 = true) :
    s.update k = { s with current_piece := { s.current_piece with y := s.current_piece.y + 1 } } := by
  unfold TetrisGame.update
  rw [if_neg (by simp [hgo]), if_neg (by simp [hdown])]

lemma update_merge_branch (k : Nat) (s : TetrisGame) (hgo : s.game_over = false)
    (hdown : s.can_move 0 1 = false) :
    s.update k =
      (if ({ s.merge_piece.clear_lines with current_piece := newTetromino k } : TetrisGame).can_move 0 0 = false
        then { s.merge_piece.clear_lines with current_piece := newTetromino k, game_over := true }
        else { s.merge_piece.clear_lines with current_piece := newTetromino k }) := by
  unfold TetrisGame.update
  rw [if_neg (by simp [hgo]), if_pos hdown]

lemma update_inv (k : Nat) (s : TetrisGame) :
    (s.update k).game_over = true ∨ (s.update k).can_move 0 0 = true := by
  by_cases hgo : s.game_over = true
  · rw [update_terminal k s hgo]
    exact Or.inl hgo
  · have hgo2 : s.game_over = false := by simpa using hgo
    by_cases hdown : s.can_move 0 1 = true
    · rw [update_fall_branch k s hgo2 hdown]
      right
      unfold TetrisGame.can_move at hdown ⊢
      simpa using hdown
    · have hdown2 : s.can_move 0 1 = false := by simpa using hdown
      rw [update_merge_branch k s hgo2 hdown2]
      by_cases hspawn :
          ({ s.merge_piece.clear_lines with current_piece := newTetromino k } : TetrisGame).can_move 0 0 = false
      · rw [if_pos hspawn]
        exact Or.inl rfl
      · rw [if_neg hspawn]
        right
        simpa using hspawn

lemma move_inv (dx : Int) (s : TetrisGame)
    (h : s.game_over = true ∨ s.can_move 0 0 = true) :
    (s.move_piece dx).game_over = true ∨ (s.move_piece dx).can_move 0 0 = true := by
  unfold TetrisGame.move_piece
  by_cases hm : s.can_move dx 0 = true
  · rw [if_pos hm]
    right
    unfold TetrisGame.can_move at hm ⊢
    simpa using hm
  · rw [if_neg hm]
    exact h

lemma rotate_inv (s : TetrisGame)
    (h : s.game_over = true ∨ s.can_move 0 0 = true) :
    s.rotate_piece.game_over = true ∨ s.rotate_piece.can_move 0 0 = true := by
  unfold TetrisGame.rotate_piece
  by_cases h1 : s.is_valid_position
      { s.current_piece.rotate with x := s.current_piece.x + (-1) } = true
  · rw [if_pos h1]
    right
    unfold TetrisGame.is_valid_position at h1
    unfold TetrisGame.can_move
    simpa [Tetromino.rotate] using h1
  · rw [if_neg h1]
    by_cases h2 : s.is_valid_position
        { s.current_piece.rotate with x := s.current_piece.x + 0 } = true
    · rw [if_pos h2]
      right
      unfold TetrisGame.is_valid_position at h2
      unfold TetrisGame.can_move
      simpa [Tetromino.rotate] using h2
    · rw [if_neg h2]
      by_cases h3 : s.is_valid_position
          { s.current_piece.rotate with x := s.current_piece.x + 1 } = true
      · rw [if_pos h3]
        right
        unfold TetrisGame.is_valid_position at h3
        unfold TetrisGame.can_move
        simpa [Tetromino.rotate] using h3
      · rw [if_neg h3]
        exact h

lemma init_inv (k : Nat) :
    (initGame k).game_over = true ∨ (initGame k).can_move 0 0 = true := by
  right
  have h7 : k % 7 = 0 ∨ k % 7 = 1 ∨ k % 7 = 2 ∨ k % 7 = 3 ∨ k % 7 = 4 ∨ k % 7 = 5 ∨
      k % 7 = 6 := by omega
  unfold initGame newTetromino
  have hlen : shapes.length = 7 := rfl
  rw [hlen]
  rcases h7 with h | h | h | h | h | h | h <;> rw [h] <;> decide

/-- C9: in every game state reachable from a fresh game by the tick and
the player commands, either the terminal flag is set or the current piece
position passes the whole board validity check; consequently, in a
non-terminal state every board index used by the unguarded writes of
merge_piece (the occupied mask cells with nonnegative board row) satisfies
0 <= x < 10 and 0 <= y < 20, so no operation indexes outside the fixed
board dimensions. -/
theorem claimC9_reachable_safety (s : TetrisGame) (hs : Reachable s) :
    (s.game_over = true ∨ s.can_move 0 0 = true) ∧
    (s.game_over = false → ∀ i j : Nat, cellAt s.current_piece.blocks i j = true →
      0 ≤ s.current_piece.y + (i : Int) →
      0 ≤ s.current_piece.x + (j : Int) ∧ s.current_piece.x + (j : Int) < 10 ∧
        s.current_piece.y + (i : Int) < 20) := by
  have hinv : ∀ t : TetrisGame, Reachable t → (t.game_over = true ∨ t.can_move 0 0 = true) := by
    intro t ht
    induction ht with
    | init k => exact init_inv k
    | tick k hr ih => exact update_inv k _
    | move dx hdx hr ih => exact move_inv dx _ ih
    | rot hr ih => exact rotate_inv _ ih
    | drop k hr ih => exact update_inv k _
  refine ⟨hinv s hs, ?_⟩
  intro hgo i j hcell hy
  have hv : s.can_move 0 0 = true := by
    rcases hinv s hs with h | h
    · rw [hgo] at h
      exact absurd h (by simp)
    · exact h
  unfold TetrisGame.can_move at hv
  rw [canMoveCells_true_iff] at hv
  obtain ⟨h1, h2, h3, _⟩ := hv i j hcell
  refine ⟨by omega, by omega, by omega⟩

/-- C9 witness: the safety theorem applied to a concrete reachable state,
the fresh game spawning the O piece. -/
theorem claimC9_witness :
    (initGame 1).game_over = true ∨ (initGame 1).can_move 0 0 = true :=
  (claimC9_reachable_safety (initGame 1) (Reachable.init 1)).1

/-! ### Cell level description of merge_piece -/

lemma getD_set_self {α : Type} (l : List α) (i : Nat) (a d : α) (h : i < l.length) :
    (l.set i a).getD i d = a := by
  simp [List.getD_eq_getElem?_getD, List.getElem?_set, h]

lemma getD_set_ne {α : Type} (l : List α) (i j : Nat) (a d : α) (h : i ≠ j) :
    (l.set i a).getD j d = l.getD j d := by
  simp [List.getD_eq_getElem?_getD, List.getElem?_set_ne h]

lemma setCell_length (b : List (List BlockType)) (y x : Nat) :
    (setCell b y x).length = b.length := by
  simp [setCell]

lemma setCell_rowlen (b : List (List BlockType)) (y x r : Nat) :
    ((setCell b y x).getD r []).length = (b.getD r []).length := by
  unfold setCell
  by_cases hy : y = r
  · subst hy
    by_cases h : y < b.length
    · rw [getD_set_self _ _ _ _ h]
      simp
    · rw [List.set_eq_of_length_le (by omega)]
  · rw [getD_set_ne _ _ _ _ _ hy]

lemma getCell_setCell_self (b : List (List BlockType)) (y x : Nat)
    (hy : y < b.length) (hx : x < (b.getD y []).length) :
    getCell (setCell b y x) y x = BlockType.Filled := by
  unfold getCell setCell
  rw [getD_set_self _ _ _ _ hy]
  exact getD_set_self _ _ _ _ hx

lemma getCell_setCell_other (b : List (List BlockType)) (y x r c : Nat)
    (h : ¬(y = r ∧ x = c)) :
    getCell (setCell b y x) r c = getCell b r c := by
  unfold getCell setCell
  by_cases hy : y = r
  · subst hy
    have hx : x ≠ c := fun hc => h ⟨rfl, hc⟩
    by_cases hlt : y < b.length
    · rw [getD_set_self _ _ _ _ hlt]
      rw [getD_set_ne _ _ _ _ _ hx]
    · rw [List.set_eq_of_length_le (by omega)]
  · rw [getD_set_ne _ _ _ _ _ hy]

lemma foldl_invar {α : Type} (f : α → Nat → α) (P : α → Prop)
    (hf : ∀ a n, P a → P (f a n)) :
    ∀ (L : List Nat) (a : α), P a → P (L.foldl f a) := by
  intro L
  induction L with
  | nil => intro a ha; exact ha
  | cons h t ih => intro a ha; exact ih _ (hf a h ha)

lemma foldl_frameg {α β : Type} (f : α → Nat → α) (g : α → β)
    (hf : ∀ a n, g (f a n) = g a) :
    ∀ (L : List Nat) (a : α), g (L.foldl f a) = g a := by
  intro L
  induction L with
  | nil => intro a; rfl
  | cons h t ih => intro a; rw [List.foldl_cons, ih, hf]

lemma foldl_establish {α : Type} (f : α → Nat → α) (P Q : α → Prop) (n0 : Nat)
    (hQ : ∀ a n, Q a → Q (f a n))
    (hkeep : ∀ a n, P a → P (f a n))
    (hset : ∀ a, Q a → P (f a n0)) :
    ∀ (L : List Nat) (a : α), Q a → n0 ∈ L → P (L.foldl f a) := by
  intro L
  induction L with
  | nil => intro a _ hmem; simp at hmem
  | cons h t ih =>
    intro a hq hmem
    rw [List.foldl_cons]
    rcases List.mem_cons.mp hmem with he | hmem2
    · subst he
      exact foldl_invar f P hkeep t _ (hset a hq)
    · exact ih _ (hQ a h hq) hmem2

lemma mergeStep_length (p : Tetromino) (acc : List (List BlockType)) (i j : Nat) :
    (mergeStep p acc i j).length = acc.length := by
  unfold mergeStep
  split
  · split
    · rw [setCell_length]
    · rfl
  · rfl

lemma mergeStep_rowlen (p : Tetromino) (acc : List (List BlockType)) (i j r : Nat) :
    ((mergeStep p acc i j).getD r []).length = (acc.getD r []).length := by
  unfold mergeStep
  split
  · split
    · rw [setCell_rowlen]
    · rfl
  · rfl

lemma mergeBlocks_length (b : List (List BlockType)) (p : Tetromino) :
    (mergeBlocks b p).length = b.length := by
  unfold mergeBlocks
  apply foldl_frameg
  intro a n
  unfold mergeRow
  apply foldl_frameg
  intro a2 n2
  exact mergeStep_length p a2 n n2

lemma mergeBlocks_rowlen (b : List (List BlockType)) (p : Tetromino) (r : Nat) :
    ((mergeBlocks b p).getD r []).length = (b.getD r []).length := by
  unfold mergeBlocks
  exact foldl_frameg (fun acc i => mergeRow p acc i) (fun a => (a.getD r []).length)
    (fun a n => by
      unfold mergeRow
      exact foldl_frameg (fun acc2 j => mergeStep p acc2 n j) (fun a2 => (a2.getD r []).length)
        (fun a2 n2 => mergeStep_rowlen p a2 n n2 r) _ a) _ b

lemma getCell_setCell_filled (acc : List (List BlockType)) (y x r c : Nat)
    (h : getCell acc r c = BlockType.Filled) :
    getCell (setCell acc y x) r c = BlockType.Filled := by
  by_cases hrc : y = r ∧ x = c
  · obtain ⟨rfl, rfl⟩ := hrc
    by_cases hy : y < acc.length
    · by_cases hx : x < (acc.getD y []).length
      · exact getCell_setCell_self _ _ _ hy hx
      · unfold getCell setCell
        rw [getD_set_self _ _ _ _ hy]
        rw [List.set_eq_of_length_le (by omega)]
        exact h
    · unfold setCell
      rw [List.set_eq_of_length_le (by omega)]
      exact h
  · rw [getCell_setCell_other _ _ _ _ _ hrc]
    exact h

lemma mergeStep_keeps_filled (p : Tetromino) (r c : Nat) (acc : List (List BlockType))
    (i j : Nat) (h : getCell acc r c = BlockType.Filled) :
    getCell (mergeStep p acc i j) r c = BlockType.Filled := by
  unfold mergeStep
  split
  · split
    · exact getCell_setCell_filled _ _ _ _ _ h
    · exact h
  · exact h

lemma getCell_mergeBlocks_hit (b : List (List BlockType)) (p : Tetromino) (i0 j0 : Nat)
    (hcell : cellAt p.blocks i0 j0 = true)
    (hy : 0 ≤ p.y + (i0 : Int))
    (hr : (p.y + (i0 : Int)).toNat < b.length)
    (hc : (p.x + (j0 : Int)).toNat < (b.getD (p.y + (i0 : Int)).toNat []).length) :
    getCell (mergeBlocks b p) (p.y + (i0 : Int)).toNat (p.x + (j0 : Int)).toNat
      = BlockType.Filled := by
  have hb := cellAt_bounds hcell
  set r := (p.y + (i0 : Int)).toNat with hrdef
  set c := (p.x + (j0 : Int)).toNat with hcdef
  have hQstep : ∀ (a : List (List BlockType)) (i j : Nat),
      (a.length = b.length ∧ ∀ ρ : Nat, (a.getD ρ []).length = (b.getD ρ []).length) →
      ((mergeStep p a i j).length = b.length ∧
        ∀ ρ : Nat, ((mergeStep p a i j).getD ρ []).length = (b.getD ρ []).length) := by
    intro a i j hq
    exact ⟨by rw [mergeStep_length]; exact hq.1,
      fun ρ => by rw [mergeStep_rowlen]; exact hq.2 ρ⟩
  have hset_inner : ∀ a : List (List BlockType),
      (a.length = b.length ∧ ∀ ρ : Nat, (a.getD ρ []).length = (b.getD ρ []).length) →
      getCell (mergeStep p a i0 j0) r c = BlockType.Filled := by
    intro a hq
    unfold mergeStep
    rw [if_pos hcell, if_pos hy]
    exact getCell_setCell_self a r c (by rw [hq.1]; exact hr) (by rw [hq.2 r]; exact hc)
  have hset_outer : ∀ a : List (List BlockType),
      (a.length = b.length ∧ ∀ ρ : Nat, (a.getD ρ []).length = (b.getD ρ []).length) →
      getCell (mergeRow p a i0) r c = BlockType.Filled := by
    intro a hq
    unfold mergeRow
    exact foldl_establish _ (fun a2 => getCell a2 r c = BlockType.Filled)
      (fun a2 => a2.length = b.length ∧ ∀ ρ : Nat, (a2.getD ρ []).length = (b.getD ρ []).length)
      j0 (fun a2 j hq2 => hQstep a2 i0 j hq2)
      (fun a2 j hp2 => mergeStep_keeps_filled p r c a2 i0 j hp2)
      hset_inner _ a hq (List.mem_range.mpr hb.2)
  unfold mergeBlocks
  exact foldl_establish _ (fun a => getCell a r c = BlockType.Filled)
    (fun a => a.length = b.length ∧ ∀ ρ : Nat, (a.getD ρ []).length = (b.getD ρ []).length)
    i0
    (fun a i hq => by
      unfold mergeRow
      exact foldl_invar _
        (fun a2 => a2.length = b.length ∧ ∀ ρ : Nat, (a2.getD ρ []).length = (b.getD ρ []).length)
        (fun a2 j hq2 => hQstep a2 i j hq2) _ a hq)
    (fun a i hp => by
      unfold mergeRow
      exact foldl_invar _ (fun a2 => getCell a2 r c = BlockType.Filled)
        (fun a2 j hp2 => mergeStep_keeps_filled p r c a2 i j hp2) _ a hp)
    hset_outer _ b ⟨rfl, fun ρ => rfl⟩ (List.mem_range.mpr hb.1)

lemma getCell_mergeBlocks_frame (b : List (List BlockType)) (p : Tetromino) (r c : Nat)
    (hmiss : ∀ i j : Nat, cellAt p.blocks i j = true → 0 ≤ p.y + (i : Int) →
      ¬((p.y + (i : Int)).toNat = r ∧ (p.x + (j : Int)).toNat = c)) :
    getCell (mergeBlocks b p) r c = getCell b r c := by
  unfold mergeBlocks
  exact foldl_frameg (fun acc i => mergeRow p acc i) (fun a => getCell a r c)
    (fun a i => by
      unfold mergeRow
      exact foldl_frameg (fun acc2 j => mergeStep p acc2 i j) (fun a2 => getCell a2 r c)
        (fun a2 j => by
          show getCell (mergeStep p a2 i j) r c = getCell a2 r c
          unfold mergeStep
          by_cases hcell : cellAt p.blocks i j = true
          · rw [if_pos hcell]
            by_cases hy : 0 ≤ p.y + (i : Int)
            · rw [if_pos hy]
              exact getCell_setCell_other _ _ _ _ _ (hmiss i j hcell hy)
            · rw [if_neg hy]
          · rw [if_neg hcell]) _ a) _ b

lemma defaultBoard_length : defaultBoard.length = 20 := by
  simp [defaultBoard, boardHeight]

lemma defaultBoard_rowlen (r : Nat) (h : r < 20) : (defaultBoard.getD r []).length = 10 := by
  unfold defaultBoard
  rw [getD_of_lt _ _ (by simpa [boardHeight] using h)]
  simp [boardWidth]

lemma isFullRow_false_of_cell (row : List BlockType) (c0 : Nat) (hc : c0 < row.length)
    (hcell : row.getD c0 BlockType.Empty ≠ BlockType.Filled) : isFullRow row = false := by
  rw [Bool.eq_false_iff]
  intro hfull
  unfold isFullRow at hfull
  rw [List.all_eq_true] at hfull
  have hm := hfull (row[c0]) (List.getElem_mem hc)
  rw [beq_iff_eq] at hm
  rw [getD_of_lt _ _ hc] at hcell
  exact hcell hm

lemma occ_le_of_bounded {m : List (List Bool)} {bI : Nat} (hlen : m.length ≤ 2)
    (hwid : ∀ r ∈ m, r.length ≤ 4)
    (hdec : ∀ i : Nat, i < 2 → ∀ j : Nat, j < 4 → cellAt m i j = true → i ≤ bI) :
    ∀ i j : Nat, cellAt m i j = true → i ≤ bI := by
  intro i j h
  obtain ⟨hi, hj⟩ := cellAt_bounds h
  have hrow : (m.getD i []).length ≤ 4 := by
    rw [getD_of_lt _ _ hi]
    exact hwid _ (List.getElem_mem hi)
  exact hdec i (by omega) j (by omega) h

lemma occ_width_le {m : List (List Bool)} (hwid : ∀ r ∈ m, r.length ≤ 4) :
    ∀ i j : Nat, cellAt m i j = true → j ≤ 3 := by
  intro i j h
  obtain ⟨hi, hj⟩ := cellAt_bounds h
  have hrow : (m.getD i []).length ≤ 4 := by
    rw [getD_of_lt _ _ hi]
    exact hwid _ (List.getElem_mem hi)
  omega

lemma dropLoop_reach (m : List (List Bool)) (x : Int) (bI : Nat) (go : Bool) (sc : Nat)
    (hmax : ∀ i j : Nat, cellAt m i j = true → i ≤ bI)
    (hocc : ∃ j0 : Nat, cellAt m bI j0 = true)
    (hxb : ∀ i j : Nat, cellAt m i j = true → 0 ≤ x + (j : Int) ∧ x + (j : Int) < 10) :
    ∀ (n : Nat) (y : Int) (f : Nat), y = 19 - (bI : Int) - (n : Int) → n < f →
      dropLoop f
          { board := defaultBoard, current_piece := { blocks := m, x := x, y := y },
            game_over := go, score := sc }
        = { board := defaultBoard,
            current_piece := { blocks := m, x := x, y := 19 - (bI : Int) },
            game_over := go, score := sc } := by
  obtain ⟨j0, hj0⟩ := hocc
  intro n
  induction n with
  | zero =>
    intro y f hy hf
    cases f with
    | zero => omega
    | succ f =>
      rw [dropLoop]
      rw [if_neg ?stop]
      case stop =>
        intro hc
        unfold TetrisGame.can_move at hc
        dsimp only at hc
        rw [canMoveCells_default_iff] at hc
        have h3 := (hc bI j0 hj0).2.2
        omega
      have hy19 : y = 19 - (bI : Int) := by omega
      rw [hy19]
  | succ n ih =>
    intro y f hy hf
    cases f with
    | zero => omega
    | succ f =>
      rw [dropLoop]
      rw [if_pos ?go]
      case go =>
        unfold TetrisGame.can_move
        dsimp only
        rw [canMoveCells_default_iff]
        intro i jj hc
        have hi := hmax i jj hc
        obtain ⟨hx1, hx2⟩ := hxb i jj hc
        refine ⟨by omega, by omega, by omega⟩
      exact ih (y + 1) f (by omega) (by omega)

lemma hard_drop_default_bottom (m : List (List Bool)) (x y : Int) (next : Nat) (bI : Nat)
    (hocc : ∃ j0 : Nat, cellAt m bI j0 = true)
    (hmax : ∀ i j : Nat, cellAt m i j = true → i ≤ bI)
    (hwidth : ∀ i j : Nat, cellAt m i j = true → j ≤ 3)
    (hvalid : canMoveCells defaultBoard m x y = true) :
    ∀ j : Nat, cellAt m bI j = true →
      getCell (TetrisGame.hard_drop next { board := defaultBoard, current_piece := { blocks := m, x := x, y := y }, game_over := false, score := 0 }).board 19 (x + (j : Int)).toNat = BlockType.Filled := by
  intro j hj
  obtain ⟨j0, hj0⟩ := hocc
  rw [canMoveCells_default_iff] at hvalid
  have hyb : y + (bI : Int) < 20 := (hvalid bI j0 hj0).2.2
  have hxb : ∀ i jj : Nat, cellAt m i jj = true → 0 ≤ x + (jj : Int) ∧ x + (jj : Int) < 10 :=
    fun i jj h => ⟨(hvalid i jj h).1, (hvalid i jj h).2.1⟩
  unfold TetrisGame.hard_drop
  dsimp only
  rw [dropLoop_reach m x bI false 0 hmax ⟨j0, hj0⟩ hxb ((19 - (bI : Int) - y).toNat) y ((20 - y).toNat) (by omega) (by omega)]
  have hdown : ({ board := defaultBoard, current_piece := { blocks := m, x := x, y := 19 - (bI : Int) }, game_over := false, score := 0 } : TetrisGame).can_move 0 1 = false := by
    rw [Bool.eq_false_iff]
    intro hc
    unfold TetrisGame.can_move at hc
    dsimp only at hc
    rw [canMoveCells_default_iff] at hc
    have h3 := (hc bI j0 hj0).2.2
    omega
  rw [update_merge_branch next _ rfl hdown]
  have hhit : getCell (mergeBlocks defaultBoard ({ blocks := m, x := x, y := 19 - (bI : Int) } : Tetromino)) 19 (x + (j : Int)).toNat = BlockType.Filled := by
    have h19 : ((19 - (bI : Int)) + (bI : Int)).toNat = 19 := by omega
    have hhit2 := getCell_mergeBlocks_hit defaultBoard { blocks := m, x := x, y := 19 - (bI : Int) } bI j hj (by dsimp only; omega) (by dsimp only; rw [h19, defaultBoard_length]; omega) (by dsimp only; rw [h19, defaultBoard_rowlen 19 (by omega)]; obtain ⟨hx1, hx2⟩ := hxb bI j hj; omega)
    dsimp only at hhit2
    rw [h19] at hhit2
    exact hhit2
  have hnofull : ∀ r ∈ (TetrisGame.merge_piece { board := defaultBoard, current_piece := { blocks := m, x := x, y := 19 - (bI : Int) }, game_over := false, score := 0 }).board, isFullRow r = false := by
    intro r hr
    have hr2 : r ∈ mergeBlocks defaultBoard ({ blocks := m, x := x, y := 19 - (bI : Int) } : Tetromino) := hr
    obtain ⟨ρ, hρ, rfl⟩ := List.getElem_of_mem hr2
    have hρ20 : ρ < 20 := by
      have hl := mergeBlocks_length defaultBoard ({ blocks := m, x := x, y := 19 - (bI : Int) } : Tetromino)
      rw [defaultBoard_length] at hl
      omega
    have hrowlen : ((mergeBlocks defaultBoard ({ blocks := m, x := x, y := 19 - (bI : Int) } : Tetromino)).getD ρ []).length = 10 := by
      rw [mergeBlocks_rowlen, defaultBoard_rowlen ρ hρ20]
    by_cases h1x : (1 : Int) ≤ x
    · have hframe : getCell (mergeBlocks defaultBoard ({ blocks := m, x := x, y := 19 - (bI : Int) } : Tetromino)) ρ 0 = getCell defaultBoard ρ 0 := by
        apply getCell_mergeBlocks_frame
        intro i jj hci hyi hcontr
        have hx0 := (hxb i jj hci).1
        have hc0 := hcontr.2
        dsimp only at hc0
        omega
      apply isFullRow_false_of_cell _ 0
      · rw [← getD_of_lt _ ([] : List BlockType) hρ, hrowlen]
        omega
      · rw [← getD_of_lt _ ([] : List BlockType) hρ]
        intro hfill
        have hfill2 : getCell (mergeBlocks defaultBoard ({ blocks := m, x := x, y := 19 - (bI : Int) } : Tetromino)) ρ 0 = BlockType.Filled := hfill
        rw [hframe] at hfill2
        exact getCell_defaultBoard ρ 0 hfill2
    · have hframe : getCell (mergeBlocks defaultBoard ({ blocks := m, x := x, y := 19 - (bI : Int) } : Tetromino)) ρ 9 = getCell defaultBoard ρ 9 := by
        apply getCell_mergeBlocks_frame
        intro i jj hci hyi hcontr
        have hw := hwidth i jj hci
        have hx0 := (hxb i jj hci).1
        have hc0 := hcontr.2
        dsimp only at hc0
        omega
      apply isFullRow_false_of_cell _ 9
      · rw [← getD_of_lt _ ([] : List BlockType) hρ, hrowlen]
        omega
      · rw [← getD_of_lt _ ([] : List BlockType) hρ]
        intro hfill
        have hfill2 : getCell (mergeBlocks defaultBoard ({ blocks := m, x := x, y := 19 - (bI : Int) } : Tetromino)) ρ 9 = BlockType.Filled := hfill
        rw [hframe] at hfill2
        exact getCell_defaultBoard ρ 9 hfill2
  have hmlen : (TetrisGame.merge_piece { board := defaultBoard, current_piece := { blocks := m, x := x, y := 19 - (bI : Int) }, game_over := false, score := 0 }).board.length = 20 := by
    show (mergeBlocks defaultBoard _).length = 20
    rw [mergeBlocks_length, defaultBoard_length]
  have hclear := clear_lines_id _ hmlen hnofull
  rw [hclear]
  by_cases hsp : ({ TetrisGame.merge_piece { board := defaultBoard, current_piece := { blocks := m, x := x, y := 19 - (bI : Int) }, game_over := false, score := 0 } with current_piece := newTetromino next } : TetrisGame).can_move 0 0 = false
  · rw [if_pos hsp]
    exact hhit
  · rw [if_neg hsp]
    exact hhit

/-- C5: for every catalog shape, starting from any anchor valid on the all
Empty board, hard_drop (which repeatedly increments y while the piece can
move down, then runs one tick, which merges) leaves the cells of the
bottom most occupied mask row Filled in board row 19. -/
theorem claimC5_hard_drop_bottom_row (k : Nat) (hk : k < 7) (x y : Int) (next : Nat)
    (hvalid : canMoveCells defaultBoard (shapes.getD k []) x y = true) :
    ∀ j : Nat, cellAt (shapes.getD k []) (bottomOcc (shapes.getD k [])) j = true →
      getCell (TetrisGame.hard_drop next { board := defaultBoard, current_piece := { blocks := shapes.getD k [], x := x, y := y }, game_over := false, score := 0 }).board 19 (x + (j : Int)).toNat = BlockType.Filled := by
  apply hard_drop_default_bottom _ _ _ _ _ ?hocc ?hmax ?hwidth hvalid
  case hocc => interval_cases k <;> exact ⟨1, by decide⟩
  case hmax => interval_cases k <;> exact occ_le_of_bounded (by decide) (by decide) (by decide)
  case hwidth => interval_cases k <;> exact occ_width_le (by decide)

/-- C5 witness: the hard drop theorem applied to the O piece dropped from
its spawn anchor (4, 0): after the drop and merge, the bottom left cell of
the O lands at board position (19, 4). -/
theorem claimC5_witness :
    getCell (TetrisGame.hard_drop 0 { board := defaultBoard, current_piece := { blocks := shapes.getD 1 [], x := 4, y := 0 }, game_over := false, score := 0 }).board 19 ((4 : Int) + ((0 : Nat) : Int)).toNat = BlockType.Filled :=
  claimC5_hard_drop_bottom_row 1 (by decide) 4 0 0 (by decide) 0 (by decide)
